import Mathlib

/-!
Verification development for `news_dashboard.py`.

This file gives a shallow embedding of the parts of the program that the
recommendation pipeline depends on, and proves the stated properties of the
recommendation aggregator, the historical-store handling and the sentiment
fallback against that embedding.

Modelling conventions, recorded once here:

* Python strings are Lean `String`; Python `needle in hay` is the substring
  test `pyIn`; `str.lower()` is `pyLower` (ASCII, which is all the program
  uses).
* Python floats are modelled as exact rationals `ℚ`; `round(x, 2)` is
  modelled as round-half-to-even at two decimals (`roundTo2`).
* `pandas` tables are lists of rows whose cells are `Option String`
  (`none` models a NaN cell, as produced for empty CSV cells).
  `historical_data["sentiment"].str.contains(stock, na=False)` treats the
  pattern as a regular expression, but every tracked ticker symbol is plain
  alphanumeric text, on which regular-expression search and substring search
  coincide; we model it as substring search on non-NaN cells.
* `df.iterrows()` over a filtered frame yields the row labels of the
  original frame, i.e. the 0-based position of each row in the table as
  loaded; we model it by enumerating the full table and guarding on the
  filter condition, which preserves exactly those indices.
* The per-stock dictionary `stock_sentiments` is modelled as a function
  `String → List String`, updated by the same two nested loops as the code.
* The iteration order of a Python `set` of strings is implementation
  defined (hash randomisation), so the tie-break in
  `max(sentiment_counts, key=sentiment_counts.get)` is modelled by an
  explicit parameter `setOrder`; `validSetOrder` states exactly what any
  real set-iteration order satisfies (each distinct element once).
  `pyDictKeys` (first-occurrence deduplication, which is the key order of a
  Python dict comprehension) is one concrete valid instantiation.
* Network and file-system effects are modelled by passing the outcome of
  the external call as an `Except` value: `analyze_sentiment_for_article`
  receives the outcome of the Ollama request plus response processing, and
  `load_historical_data` receives the outcome of `pd.read_csv`.
-/

namespace NewsDashboard

/-- Decides whether the first character list is an initial segment of the
second; helper for the substring test. -/
def leadsIn : List Char → List Char → Bool
  | [], _ => true
  | _ :: _, [] => false
  | a :: as, b :: bs => a = b && leadsIn as bs

/-- Substring occurrence on character lists: some tail of `hay` starts with
`needle`. -/
def occursIn (needle : List Char) : List Char → Bool
  | [] => needle.isEmpty
  | b :: bs => leadsIn needle (b :: bs) || occursIn needle bs

/-- Python `needle in hay` for strings (substring containment). -/
def pyIn (needle hay : String) : Bool :=
  occursIn needle.data hay.data

/-- Python `s.lower()` for the ASCII text this program handles, as a map
over the character list of the string. -/
def pyLower (s : String) : String :=
  ⟨s.data.map Char.toLower⟩

/-- An article record as produced by `get_news_data`. -/
structure Article where
  title : String
  snippet : String
  link : String
  date : String
  source : String
  deriving DecidableEq

/-- A row of the historical store; `none` cells model NaN entries of the
loaded `pandas` table. -/
structure HistRow where
  title : Option String
  snippet : Option String
  link : Option String
  date : Option String
  source : Option String
  sentiment : Option String
  deriving DecidableEq

/-- A loaded table: its column names and its rows. -/
structure Table where
  columns : List String
  rows : List HistRow
  deriving DecidableEq

/-- The ways `pd.read_csv` can fail in `load_historical_data`:
the file is missing (`FileNotFoundError`), the file exists but cannot be
read (`PermissionError` and similar), or its contents cannot be parsed. -/
inductive ReadError
  | fileNotFound
  | permissionDenied
  | parseError
  deriving DecidableEq

/-- Column list of the empty frame built by `load_historical_data`. -/
def histColumns : List String :=
  ["title", "snippet", "link", "date", "source", "sentiment"]

/-- `load_historical_data`, lines 50 to 55: try `pd.read_csv`; a
`FileNotFoundError` yields the empty table with the six named columns, and
any other outcome of the read is returned unchanged (the `except` clause
names only `FileNotFoundError`, so every other exception propagates). -/
def load_historical_data (readResult : Except ReadError Table) : Except ReadError Table :=
  match readResult with
  | Except.ok t => Except.ok t
  | Except.error ReadError.fileNotFound => Except.ok ⟨histColumns, []⟩
  | Except.error e => Except.error e

/-- The date-separator row built in `save_historical_data`, lines 62 to 70,
with the formatted `datetime.now()` banner passed in as `ts`. -/
def dateSeparatorRow (ts : String) : HistRow :=
  { title := some ("\n--- " ++ ts ++ " ---\n")
    snippet := some ""
    link := some ""
    date := some ""
    source := some ""
    sentiment := some "" }

/-- `save_historical_data`, lines 57 to 78, at the level of the row list it
writes: `pd.concat([historical_data, date_separator_df, new_data])`, where
`historical_data` is the previously loaded table. -/
def save_historical_data (ts : String) (new_data historical_data : List HistRow) :
    List HistRow :=
  historical_data ++ [dateSeparatorRow ts] ++ new_data

/-- Failure modes of the Sentiment-Oracle interaction: the network request
or the response processing raised. -/
inductive OracleError
  | network
  | parse
  deriving DecidableEq

/-- `analyze_sentiment_for_article`, lines 94 to 110: the whole request and
response processing sits in one `try` block; `oracleResult` is its outcome.
On success the article is paired with the processed response text, on any
exception with the literal fallback text. -/
def analyze_sentiment_for_article (article : Article)
    (oracleResult : Except OracleError String) : Article × String :=
  match oracleResult with
  | Except.ok text => (article, text)
  | Except.error _ => (article, "Unable to analyze sentiment.")

/-- Lines 129 to 135 of the aggregator, for one sentiment record and one
stock: the votes appended to that stock for that record. -/
def currentRecordVotes (recency_weight : ℕ) (stock sentiment : String) : List String :=
  if pyIn stock sentiment then
    if pyIn "buy" (pyLower sentiment) then List.replicate recency_weight "buy"
    else if pyIn "sell" (pyLower sentiment) then List.replicate recency_weight "sell"
    else if pyIn "hold" (pyLower sentiment) then List.replicate recency_weight "hold"
    else []
  else []

/-- Line 141: `int(max(1, recency_weight * historical_decay ** index))`.
Python `int()` truncates toward zero; the argument is at least 1 here, so
truncation coincides with the floor. -/
def intWeight (recency_weight : ℕ) (historical_decay : ℚ) (i : ℕ) : ℕ :=
  (⌊max (1 : ℚ) ((recency_weight : ℚ) * historical_decay ^ i)⌋).toNat

/-- Lines 141 to 147, for one matching historical row at original index `i`:
the votes appended for that row. -/
def histRowVotes (rw : ℕ) (d : ℚ) (i : ℕ) (sentiment : String) : List String :=
  if pyIn "buy" (pyLower sentiment) then List.replicate (intWeight rw d i) "buy"
  else if pyIn "sell" (pyLower sentiment) then List.replicate (intWeight rw d i) "sell"
  else if pyIn "hold" (pyLower sentiment) then List.replicate (intWeight rw d i) "hold"
  else []

/-- Lines 139 to 147 for one stock: filter the sentiment column on non-NaN
cells containing the stock, then iterate with the original row indices. -/
def histVotes (rw : ℕ) (d : ℚ) (stock : String) (hist : List (Option String)) :
    List String :=
  hist.enum.flatMap fun p =>
    match p.2 with
    | some s => if pyIn stock s then histRowVotes rw d p.1 s else []
    | none => []

/-- `stock_sentiments[key].extend(v)` as an update of the dictionary viewed
as a function from keys to vote lists. -/
def updateKey (key : String) (v : List String) (acc : String → List String) :
    String → List String :=
  fun x => if x = key then acc x ++ v else acc x

/-- Lines 127 to 135: the current-cycle double loop (records outer, stocks
inner), each step extending the vote list of the loop stock. -/
def addCurrent (rw : ℕ) (stocks : List String) (results : List (Article × String))
    (acc : String → List String) : String → List String :=
  results.foldl
    (fun a r =>
      stocks.foldl (fun a stock => updateKey stock (currentRecordVotes rw stock r.2) a) a)
    acc

/-- Lines 138 to 147: the historical loop over stocks, each step extending
the vote list of the loop stock by all of its matching historical votes. -/
def addHistorical (rw : ℕ) (d : ℚ) (stocks : List String) (hist : List (Option String))
    (acc : String → List String) : String → List String :=
  stocks.foldl (fun a stock => updateKey stock (histVotes rw d stock hist) a) acc

/-- The fully populated `stock_sentiments` dictionary of lines 124 to 147,
starting from the empty vote list for every key. -/
def stock_sentiments (rw : ℕ) (d : ℚ) (stocks : List String)
    (sentiment_results : List (Article × String)) (hist : List (Option String)) :
    String → List String :=
  addHistorical rw d stocks hist (addCurrent rw stocks sentiment_results (fun _ => []))

/-- Key order of a Python dict comprehension over a list: first occurrences,
in order. -/
def pyDictKeys : List String → List String
  | [] => []
  | x :: xs => x :: (pyDictKeys xs).filter (fun y => y != x)

/-- Python `max(iterable, key=f)`: the first element of the iterable whose
key is maximal (later elements replace the champion only when strictly
greater). -/
def pyMax (f : String → ℕ) : List String → Option String
  | [] => none
  | x :: xs => some (xs.foldl (fun acc y => if f acc < f y then y else acc) x)

/-- Round-half-to-even to an integer, the rounding mode of Python `round`. -/
def roundHalfEven (q : ℚ) : ℤ :=
  if q - ⌊q⌋ < 1 / 2 then ⌊q⌋
  else if 1 / 2 < q - ⌊q⌋ then ⌊q⌋ + 1
  else if Even ⌊q⌋ then ⌊q⌋ else ⌊q⌋ + 1

/-- Python `round(q, 2)` in the rational model. -/
def roundTo2 (q : ℚ) : ℚ :=
  (roundHalfEven (q * 100) : ℚ) / 100

/-- One output entry of the aggregator. -/
structure Recommendation where
  recommendation : String
  confidence : ℚ
  deriving DecidableEq

/-- Lines 151 to 158, for the vote list of one stock. `setOrder` supplies
the iteration order of `set(sentiments)`; for any faithful order the list
is nonempty exactly when the votes are, so the final `none` branch of the
match is unreachable (Python `max` on a nonempty set cannot fail). -/
def finalRecommendation (setOrder : List String → List String) (votes : List String) :
    Recommendation :=
  if votes.isEmpty then { recommendation := "No recommendation", confidence := 0 }
  else
    match pyMax (fun s => votes.count s) (setOrder votes) with
    | some best =>
        { recommendation := best
          confidence := roundTo2 (((votes.count best : ℚ) / (votes.length : ℚ)) * 100) }
    | none => { recommendation := "No recommendation", confidence := 0 }

/-- `aggregate_recommendations_with_history`, lines 122 to 160: one entry
per key of the `stock_sentiments` dictionary, in key order. -/
def aggregate_recommendations_with_history (setOrder : List String → List String)
    (sentiment_results : List (Article × String)) (stocks : List String)
    (historical_data : List HistRow) (recency_weight : ℕ) (historical_decay : ℚ) :
    List (String × Recommendation) :=
  (pyDictKeys stocks).map fun stock =>
    (stock,
      finalRecommendation setOrder
        (stock_sentiments recency_weight historical_decay stocks sentiment_results
          (historical_data.map HistRow.sentiment) stock))

/-- Lookup of one stock in the returned association list. -/
def findStock : List (String × Recommendation) → String → Option Recommendation
  | [], _ => none
  | (k, v) :: rest, s => if s = k then some v else findStock rest s

/-- What every real iteration order of `set(l)` satisfies: no duplicates,
and exactly the elements of `l`. -/
def validSetOrder (setOrder : List String → List String) : Prop :=
  ∀ l : List String, (setOrder l).Nodup ∧ ∀ s : String, s ∈ setOrder l ↔ s ∈ l

/-- Sentiment classification exactly as the specification words it: the
first of buy, sell, hold found by case-insensitive substring search, else
no label. -/
def spec_classify (text : String) : Option String :=
  if pyIn "buy" (pyLower text) then some "buy"
  else if pyIn "sell" (pyLower text) then some "sell"
  else if pyIn "hold" (pyLower text) then some "hold"
  else none

/-- Per-record current-cycle contribution as the specification words it:
if the text contains the symbol, `recency_weight` copies of the classified
label, and nothing when classification yields no label or the symbol is
absent. -/
def spec_record_votes (rw : ℕ) (stock sentiment : String) : List String :=
  if pyIn stock sentiment then
    match spec_classify sentiment with
    | some label => List.replicate rw label
    | none => []
  else []

/-- Per-entry historical contribution as the specification words it:
for a non-NaN sentiment cell containing the symbol, the truncation of
`max(1, rw * d ^ i)` copies of the classified label, else nothing. -/
def spec_hist_entry_votes (rw : ℕ) (d : ℚ) (stock : String) (i : ℕ)
    (sentiment : Option String) : List String :=
  match sentiment with
  | none => []
  | some text =>
      if pyIn stock text then
        match spec_classify text with
        | some label => List.replicate ((⌊max (1 : ℚ) ((rw : ℚ) * d ^ i)⌋).toNat) label
        | none => []
      else []

/-- A sample historical row, older data already in the store. -/
def sampleOldRow : HistRow :=
  { title := some "old title", snippet := some "s", link := some "l",
    date := some "d", source := some "x", sentiment := some "AAPL: buy" }

/-- A sample row of the current run being saved. -/
def sampleNewRow : HistRow :=
  { title := some "new title", snippet := some "s2", link := some "l2",
    date := some "d2", source := some "x2", sentiment := some "AAPL: sell" }

/-- The article of the spec scenario for claim C3. -/
def c3Article : Article :=
  { title := "Market news", snippet := "snippet", link := "link",
    date := "today", source := "wire" }

/-- The current-cycle sentiment results of the spec scenario for C3. -/
def c3Results : List (Article × String) :=
  [(c3Article, "AAPL: sell")]

/-- The single historical row of the spec scenario for C3, at row index 0. -/
def c3HistRow : HistRow :=
  { title := some "older", snippet := some "s", link := some "l",
    date := some "d", source := some "w", sentiment := some "AAPL: buy" }

/-- The historical table of the spec scenario for C3. -/
def c3Hist : List HistRow :=
  [c3HistRow]

lemma flatten_replicate_nil (n : ℕ) :
    (List.replicate n ([] : List String)).flatten = [] := by
  induction n with
  | zero => rfl
  | succ k ih => simp [List.replicate_succ, ih]

/-- Evaluating the per-key dictionary update loop at one key: each
occurrence of `k` among the loop stocks appends one copy of `g k`. -/
lemma foldl_updateKey (g : String → List String) (stocks : List String)
    (acc : String → List String) (k : String) :
    (stocks.foldl (fun a stock => updateKey stock (g stock) a) acc) k
      = acc k ++ (List.replicate (stocks.count k) (g k)).flatten := by
  induction stocks generalizing acc with
  | nil => simp
  | cons x xs ih =>
    rw [List.foldl_cons, ih]
    by_cases h : k = x
    · subst h
      simp [updateKey, List.count_cons_self, List.replicate_succ, List.append_assoc]
    · simp [updateKey, if_neg h, List.count_cons_of_ne h]

/-- Evaluating the current-cycle double loop at one key. -/
lemma addCurrent_apply (rw : ℕ) (stocks : List String)
    (results : List (Article × String)) (acc : String → List String) (k : String) :
    addCurrent rw stocks results acc k
      = acc k ++ results.flatMap
          (fun r => (List.replicate (stocks.count k) (currentRecordVotes rw k r.2)).flatten) := by
  induction results generalizing acc with
  | nil => simp [addCurrent]
  | cons r rs ih =>
    have h1 : addCurrent rw stocks (r :: rs) acc
        = addCurrent rw stocks rs
            (stocks.foldl
              (fun a stock => updateKey stock (currentRecordVotes rw stock r.2) a) acc) := rfl
    rw [h1, ih, foldl_updateKey]
    simp [List.append_assoc]

/-- Evaluating the historical loop at one key. -/
lemma addHistorical_apply (rw : ℕ) (d : ℚ) (stocks : List String)
    (hist : List (Option String)) (acc : String → List String) (k : String) :
    addHistorical rw d stocks hist acc k
      = acc k ++ (List.replicate (stocks.count k) (histVotes rw d k hist)).flatten :=
  foldl_updateKey (fun stock => histVotes rw d stock hist) stocks acc k

/-- Closed form of the populated dictionary at one key. -/
lemma stock_sentiments_apply (rw : ℕ) (d : ℚ) (stocks : List String)
    (results : List (Article × String)) (hist : List (Option String)) (k : String) :
    stock_sentiments rw d stocks results hist k
      = results.flatMap
          (fun r => (List.replicate (stocks.count k) (currentRecordVotes rw k r.2)).flatten)
        ++ (List.replicate (stocks.count k) (histVotes rw d k hist)).flatten := by
  unfold stock_sentiments
  rw [addHistorical_apply, addCurrent_apply]
  simp

lemma mem_pyDictKeys (l : List String) (s : String) : s ∈ pyDictKeys l ↔ s ∈ l := by
  induction l with
  | nil => simp [pyDictKeys]
  | cons x xs ih =>
    simp only [pyDictKeys, List.mem_cons, List.mem_filter, bne_iff_ne, ne_eq, ih]
    by_cases h : s = x
    · simp [h]
    · simp [h]

lemma nodup_pyDictKeys (l : List String) : (pyDictKeys l).Nodup := by
  induction l with
  | nil => simp [pyDictKeys]
  | cons x xs ih =>
    simp only [pyDictKeys]
    rw [List.nodup_cons]
    constructor
    · intro hmem
      have hx := (List.mem_filter.mp hmem).2
      simp at hx
    · exact List.Nodup.filter _ ih

/-- First-occurrence deduplication is one faithful set-iteration order. -/
lemma pyDictKeys_valid : validSetOrder pyDictKeys :=
  fun l => ⟨nodup_pyDictKeys l, fun s => mem_pyDictKeys l s⟩

/-- The per-record branch of the source equals the per-record contribution
worded by the spec. -/
lemma record_votes_eq (rw : ℕ) (stock s : String) :
    currentRecordVotes rw stock s = spec_record_votes rw stock s := by
  unfold currentRecordVotes spec_record_votes spec_classify
  split_ifs <;> rfl

/-- The per-row branch of the historical loop equals the per-entry
contribution worded by the spec. -/
lemma hist_row_votes_eq (rw : ℕ) (d : ℚ) (stock : String) (i : ℕ) (s : Option String) :
    (match s with
      | some txt => if pyIn stock txt then histRowVotes rw d i txt else []
      | none => ([] : List String))
      = spec_hist_entry_votes rw d stock i s := by
  cases s with
  | none => rfl
  | some txt =>
    unfold histRowVotes spec_hist_entry_votes spec_classify intWeight
    dsimp only
    split_ifs <;> rfl

lemma findStock_map (f : String → Recommendation) (l : List String) (k : String)
    (h : k ∈ l) :
    findStock (l.map fun s => (s, f s)) k = some (f k) := by
  induction l with
  | nil => cases h
  | cons x xs ih =>
    simp only [List.map_cons, findStock]
    by_cases hx : k = x
    · subst hx; simp
    · rw [if_neg hx]
      refine ih ?_
      rcases List.mem_cons.mp h with h1 | h1
      · exact absurd h1 hx
      · exact h1

/-- Claim C1: within the aggregator, a current-cycle record adds votes for
a tracked symbol exactly when its sentiment text contains the symbol
case-sensitively, and then contributes `recency_weight` copies of the first
of buy, sell, hold found case-insensitively, in that priority order, and
nothing when no keyword occurs: the current-cycle loop is exactly the
concatenation of the spec-worded per-record contributions. -/
theorem current_cycle_votes_spec (rw : ℕ) (stocks : List String)
    (results : List (Article × String)) (stock : String)
    (hnd : stocks.Nodup) (hmem : stock ∈ stocks) :
    addCurrent rw stocks results (fun _ => []) stock
      = results.flatMap fun r => spec_record_votes rw stock r.2 := by
  rw [addCurrent_apply, List.count_eq_one_of_mem hnd hmem]
  simp [record_votes_eq]

/-- Witness for C1 at a concrete input: one record classified buy, one with
no keyword contributing nothing. -/
theorem current_cycle_votes_spec_witness :
    (["AAPL", "TSLA"] : List String).Nodup ∧ "AAPL" ∈ (["AAPL", "TSLA"] : List String) ∧
      addCurrent 2 ["AAPL", "TSLA"]
        [(⟨"t1", "s1", "l1", "d1", "src1"⟩, "AAPL: Buy now"),
          (⟨"t2", "s2", "l2", "d2", "src2"⟩, "AAPL outlook is uncertain")]
        (fun _ => []) "AAPL" = ["buy", "buy"] :=
  ⟨by decide, by decide,
    (current_cycle_votes_spec 2 ["AAPL", "TSLA"]
      [(⟨"t1", "s1", "l1", "d1", "src1"⟩, "AAPL: Buy now"),
        (⟨"t2", "s2", "l2", "d2", "src2"⟩, "AAPL outlook is uncertain")]
      "AAPL" (by decide) (by decide)).trans (by decide)⟩

/-- Claim C2: within the aggregator, the historical loop for a tracked
symbol is exactly the concatenation, over the historical rows with their
0-based indices in the table as loaded, of the spec-worded per-entry
contributions: the truncation of `max(1, rw * d ^ i)` copies of the
classified label for a row whose sentiment cell contains the symbol, and
nothing for rows without the symbol, without a keyword, or with an empty
(NaN) sentiment cell such as separator rows. -/
theorem historical_votes_spec (rw : ℕ) (d : ℚ) (stocks : List String)
    (hist : List (Option String)) (stock : String)
    (hnd : stocks.Nodup) (hmem : stock ∈ stocks) :
    addHistorical rw d stocks hist (fun _ => []) stock
      = hist.enum.flatMap fun p => spec_hist_entry_votes rw d stock p.1 p.2 := by
  rw [addHistorical_apply, List.count_eq_one_of_mem hnd hmem]
  unfold histVotes
  have hfun : (fun p : ℕ × Option String =>
      (match p.2 with
        | some txt => if pyIn stock txt then histRowVotes rw d p.1 txt else []
        | none => ([] : List String)))
      = fun p : ℕ × Option String => spec_hist_entry_votes rw d stock p.1 p.2 :=
    funext fun p => hist_row_votes_eq rw d stock p.1 p.2
  simp [hfun]

/-- Witness for C2 at a concrete input: a separator row (empty sentiment),
a NaN row, and a matching hold row at index 2 with decayed weight
`int(max(1, 2 * 0.5 ^ 2)) = 1`. -/
theorem historical_votes_spec_witness :
    (["TSLA"] : List String).Nodup ∧ "TSLA" ∈ (["TSLA"] : List String) ∧
      addHistorical 2 (1 / 2) ["TSLA"] [some "", none, some "TSLA: hold"]
        (fun _ => []) "TSLA" = ["hold"] := by
  refine ⟨by decide, by decide,
    (historical_votes_spec 2 (1 / 2) ["TSLA"] [some "", none, some "TSLA: hold"]
      "TSLA" (by decide) (by decide)).trans ?_⟩
  simp +decide [List.enum, List.enumFrom, spec_hist_entry_votes, spec_classify]
  norm_num [List.replicate_one]

lemma map_fst_pairs (f : String → Recommendation) (l : List String) :
    (l.map fun s => (s, f s)).map Prod.fst = l := by
  induction l with
  | nil => rfl
  | cons x xs ih => simp [ih]

lemma roundHalfEven_sub_le (q : ℚ) : |(roundHalfEven q : ℚ) - q| ≤ 1 / 2 := by
  have h0 : ((⌊q⌋ : ℚ)) ≤ q := Int.floor_le q
  have h1 : q < (⌊q⌋ : ℚ) + 1 := Int.lt_floor_add_one q
  unfold roundHalfEven
  split_ifs <;> rw [abs_le] <;> push_cast <;> constructor <;> linarith

lemma roundHalfEven_nonneg (q : ℚ) (h : 0 ≤ q) : 0 ≤ roundHalfEven q := by
  have h0 : 0 ≤ ⌊q⌋ := Int.floor_nonneg.mpr h
  unfold roundHalfEven
  split_ifs <;> omega

lemma roundHalfEven_le (q : ℚ) (n : ℤ) (h : q ≤ n) : roundHalfEven q ≤ n := by
  have h0 : ⌊q⌋ ≤ n := by simpa using Int.floor_mono h
  have hfl : ((⌊q⌋ : ℚ)) ≤ q := Int.floor_le q
  unfold roundHalfEven
  split_ifs with hc1 hc2 hc3
  · exact h0
  · have hq : (⌊q⌋ : ℚ) < q := by linarith
    have hqn : (⌊q⌋ : ℚ) < (n : ℚ) := lt_of_lt_of_le hq h
    have : ⌊q⌋ < n := by exact_mod_cast hqn
    omega
  · exact h0
  · have hq : (⌊q⌋ : ℚ) < q := by linarith
    have hqn : (⌊q⌋ : ℚ) < (n : ℚ) := lt_of_lt_of_le hq h
    have : ⌊q⌋ < n := by exact_mod_cast hqn
    omega

lemma roundTo2_nonneg (q : ℚ) (h : 0 ≤ q) : 0 ≤ roundTo2 q := by
  unfold roundTo2
  have h1 : 0 ≤ roundHalfEven (q * 100) :=
    roundHalfEven_nonneg _ (by linarith)
  have h2 : (0 : ℚ) ≤ (roundHalfEven (q * 100) : ℚ) := by exact_mod_cast h1
  linarith

lemma roundTo2_le_100 (q : ℚ) (h : q ≤ 100) : roundTo2 q ≤ 100 := by
  unfold roundTo2
  have h1 : q * 100 ≤ ((10000 : ℤ) : ℚ) := by push_cast; linarith
  have h2 := roundHalfEven_le (q * 100) 10000 h1
  have h3 : ((roundHalfEven (q * 100) : ℚ)) ≤ 10000 := by exact_mod_cast h2
  linarith

lemma roundTo2_sub_le (q : ℚ) : |roundTo2 q - q| ≤ 1 / 200 := by
  unfold roundTo2
  have h := roundHalfEven_sub_le (q * 100)
  have heq : (roundHalfEven (q * 100) : ℚ) / 100 - q
      = ((roundHalfEven (q * 100) : ℚ) - q * 100) / 100 := by ring
  rw [heq, abs_div, abs_of_pos (show (0 : ℚ) < 100 by norm_num)]
  have h2 : |(roundHalfEven (q * 100) : ℚ) - q * 100| / 100 ≤ (1 / 2) / 100 :=
    (div_le_div_right (by norm_num : (0 : ℚ) < 100)).mpr h
  linarith

lemma intWeight_le (rw : ℕ) (d : ℚ) (i j : ℕ) (hd0 : 0 < d) (hd1 : d < 1)
    (hij : i ≤ j) : intWeight rw d j ≤ intWeight rw d i := by
  unfold intWeight
  have hpow : d ^ j ≤ d ^ i := pow_le_pow_of_le_one hd0.le hd1.le hij
  have hmul : (rw : ℚ) * d ^ j ≤ (rw : ℚ) * d ^ i :=
    mul_le_mul_of_nonneg_left hpow (by positivity)
  have hmax : max (1 : ℚ) ((rw : ℚ) * d ^ j) ≤ max 1 ((rw : ℚ) * d ^ i) :=
    max_le_max le_rfl hmul
  exact Int.toNat_le_toNat (Int.floor_mono hmax)

/-- Claim C6: for otherwise-identical matching historical entries, the
per-entry vote contribution at a larger row index is no longer than the
one at a smaller row index, for every positive integer recency weight and
every decay factor strictly between 0 and 1. -/
theorem decay_monotonic (rw : ℕ) (d : ℚ) (i j : ℕ) (s : String)
    (hrw : 1 ≤ rw) (hd0 : 0 < d) (hd1 : d < 1) (hij : i ≤ j) :
    (histRowVotes rw d j s).length ≤ (histRowVotes rw d i s).length := by
  have h := intWeight_le rw d i j hd0 hd1 hij
  unfold histRowVotes
  split_ifs <;> simpa using h

/-- Witness for C6 at a concrete input: with weight 2 and decay one half, a
buy entry at row 1 contributes at most as many votes as the same entry at
row 0. -/
theorem decay_monotonic_witness :
    1 ≤ 2 ∧ (0 : ℚ) < 1 / 2 ∧ (1 / 2 : ℚ) < 1 ∧ 0 ≤ 1 ∧
      (histRowVotes 2 (1 / 2) 1 "Definitely a buy").length
        ≤ (histRowVotes 2 (1 / 2) 0 "Definitely a buy").length :=
  ⟨by decide, by norm_num, by norm_num, by decide,
    decay_monotonic 2 (1 / 2) 0 1 "Definitely a buy" (by decide) (by norm_num)
      (by norm_num) (by decide)⟩

/-- Claim C10: for every combination of inputs the aggregator returns one
entry per tracked symbol: its key list has no duplicates and a string is a
key exactly when it is one of the given stocks. -/
theorem aggregate_keys_exact (setOrder : List String → List String)
    (results : List (Article × String)) (stocks : List String)
    (hist : List HistRow) (rw : ℕ) (d : ℚ) :
    ((aggregate_recommendations_with_history setOrder results stocks hist rw d).map
        Prod.fst).Nodup
      ∧ ∀ s : String,
          s ∈ (aggregate_recommendations_with_history setOrder results stocks hist
                rw d).map Prod.fst
            ↔ s ∈ stocks := by
  have hkeys :
      (aggregate_recommendations_with_history setOrder results stocks hist rw d).map
          Prod.fst = pyDictKeys stocks := by
    unfold aggregate_recommendations_with_history
    exact map_fst_pairs _ _
  rw [hkeys]
  exact ⟨nodup_pyDictKeys stocks, fun s => mem_pyDictKeys stocks s⟩

/-- Amended claim C4: a tracked symbol whose accumulated vote list is empty
is reported with the exact label emitted by the code, which is
"No recommendation" with a capital N, and confidence 0. -/
theorem empty_votes_no_recommendation (setOrder : List String → List String)
    (results : List (Article × String)) (stocks : List String) (hist : List HistRow)
    (rw : ℕ) (d : ℚ) (stock : String) (hmem : stock ∈ stocks)
    (hempty :
      stock_sentiments rw d stocks results (hist.map HistRow.sentiment) stock = []) :
    findStock (aggregate_recommendations_with_history setOrder results stocks hist rw d)
        stock
      = some { recommendation := "No recommendation", confidence := 0 } := by
  unfold aggregate_recommendations_with_history
  rw [findStock_map _ _ _ ((mem_pyDictKeys stocks stock).mpr hmem), hempty]
  rfl

/-- Witness for C4 at a concrete input: no record mentions TSLA, so its
entry is the no-recommendation label with confidence 0. -/
theorem empty_votes_no_recommendation_witness :
    "TSLA" ∈ (["TSLA"] : List String) ∧
      findStock (aggregate_recommendations_with_history pyDictKeys [] ["TSLA"] [] 2
          (1 / 2)) "TSLA"
        = some { recommendation := "No recommendation", confidence := 0 } :=
  ⟨by decide,
    empty_votes_no_recommendation pyDictKeys [] ["TSLA"] [] 2 (1 / 2) "TSLA"
      (by decide) rfl⟩

/-- Counterexample to C4 as stated: the emitted label is
"No recommendation", which is not the string "no recommendation" named by
the claim. -/
theorem no_recommendation_label_counterexample :
    findStock (aggregate_recommendations_with_history pyDictKeys [] ["AAPL"] [] 2
        (1 / 2)) "AAPL"
      = some { recommendation := "No recommendation", confidence := 0 }
    ∧ ({ recommendation := "No recommendation", confidence := 0 } : Recommendation)
        ≠ { recommendation := "no recommendation", confidence := 0 } := by
  refine ⟨rfl, ?_⟩
  intro h
  have h1 : "No recommendation" = "no recommendation" :=
    congrArg Recommendation.recommendation h
  exact absurd h1 (by decide)

/-- Claim C8: an Oracle failure is absorbed locally into the literal
fallback text, that text contributes zero votes for every symbol in the
current-cycle loop, and deleting the failed record from the cycle leaves
every vote list unchanged, so one failed article never affects the others. -/
theorem oracle_failure_isolated (rw : ℕ) (stocks : List String) (article : Article)
    (e : OracleError) (pre post : List (Article × String)) (stock : String) :
    analyze_sentiment_for_article article (Except.error e)
        = (article, "Unable to analyze sentiment.")
      ∧ currentRecordVotes rw stock "Unable to analyze sentiment." = []
      ∧ addCurrent rw stocks
          (pre ++ analyze_sentiment_for_article article (Except.error e) :: post)
          (fun _ => []) stock
        = addCurrent rw stocks (pre ++ post) (fun _ => []) stock := by
  have hb : pyIn "buy" (pyLower "Unable to analyze sentiment.") = false := by decide
  have hs : pyIn "sell" (pyLower "Unable to analyze sentiment.") = false := by decide
  have hh : pyIn "hold" (pyLower "Unable to analyze sentiment.") = false := by decide
  have hfb : ∀ st : String, currentRecordVotes rw st "Unable to analyze sentiment." = [] := by
    intro st
    simp [currentRecordVotes, hb, hs, hh]
  refine ⟨rfl, hfb stock, ?_⟩
  rw [addCurrent_apply, addCurrent_apply]
  simp [List.flatMap_append, analyze_sentiment_for_article, hfb, flatten_replicate_nil]

/-- Counterexample to C7 as stated: saving puts the separator-then-new
block after the previously loaded data, not ahead of it. -/
theorem save_prepend_counterexample :
    save_historical_data "2026-10-12 00:00:00" [sampleNewRow] [sampleOldRow]
        = [sampleOldRow, dateSeparatorRow "2026-10-12 00:00:00", sampleNewRow]
      ∧ [sampleOldRow, dateSeparatorRow "2026-10-12 00:00:00", sampleNewRow]
          ≠ [dateSeparatorRow "2026-10-12 00:00:00", sampleNewRow, sampleOldRow] :=
  ⟨rfl, by decide⟩

/-- Amended claim C7: the updated store keeps the previously loaded rows in
their old positions at the top, the date separator sits directly below
them, and the rows of the new run follow below the separator, so the
newest run is nearest the bottom of the file. -/
theorem save_appends_new_block (ts : String) (new_data historical_data : List HistRow) :
    (∀ i, i < historical_data.length →
        (save_historical_data ts new_data historical_data)[i]? = historical_data[i]?)
      ∧ (save_historical_data ts new_data historical_data)[historical_data.length]?
          = some (dateSeparatorRow ts)
      ∧ ∀ j, (save_historical_data ts new_data historical_data)[historical_data.length + 1 + j]?
          = new_data[j]? := by
  unfold save_historical_data
  rw [List.append_assoc]
  refine ⟨?_, ?_, ?_⟩
  · intro i hi
    rw [List.getElem?_append_left hi]
  · rw [List.getElem?_append_right (le_refl _)]
    simp
  · intro j
    rw [List.getElem?_append_right (by omega)]
    have : historical_data.length + 1 + j - historical_data.length = 1 + j := by omega
    rw [this]
    have h2 : (1 : ℕ) ≤ 1 + j := by omega
    rw [List.getElem?_append_right (by simpa using h2)]
    simp [Nat.add_comm 1 j]

/-- Witness for C7 (amended) at a concrete input: old row at position 0,
separator at position 1, new row at position 2. -/
theorem save_appends_new_block_witness :
    (save_historical_data "T" [sampleNewRow] [sampleOldRow])[0]? = some sampleOldRow
      ∧ (save_historical_data "T" [sampleNewRow] [sampleOldRow])[1]?
          = some (dateSeparatorRow "T")
      ∧ (save_historical_data "T" [sampleNewRow] [sampleOldRow])[2]? = some sampleNewRow := by
  obtain ⟨h1, h2, h3⟩ := save_appends_new_block "T" [sampleNewRow] [sampleOldRow]
  exact ⟨(h1 0 (by decide)).trans (by decide), h2, (h3 0).trans (by decide)⟩

/-- Counterexample to C9 as stated: an unreadable store (permission error)
does not yield the empty table; the error propagates. -/
theorem load_unreadable_counterexample :
    load_historical_data (Except.error ReadError.permissionDenied)
        = Except.error ReadError.permissionDenied
      ∧ load_historical_data (Except.error ReadError.permissionDenied)
          ≠ Except.ok { columns := histColumns, rows := [] } := by
  refine ⟨rfl, ?_⟩
  intro h
  exact Except.noConfusion h

/-- Amended claim C9: only a missing store file is converted into the empty
table with the six named columns; every other read failure propagates
unchanged. -/
theorem load_missing_file_empty :
    load_historical_data (Except.error ReadError.fileNotFound)
        = Except.ok { columns := histColumns, rows := [] }
      ∧ ∀ e : ReadError, e ≠ ReadError.fileNotFound →
          load_historical_data (Except.error e) = Except.error e := by
  refine ⟨rfl, ?_⟩
  intro e he
  cases e with
  | fileNotFound => exact absurd rfl he
  | permissionDenied => rfl
  | parseError => rfl

/-- Witness for C9 (amended): the missing-file case yields the empty table
and a parse failure propagates. -/
theorem load_missing_file_empty_witness :
    load_historical_data (Except.error ReadError.fileNotFound)
        = Except.ok { columns := histColumns, rows := [] }
      ∧ load_historical_data (Except.error ReadError.parseError)
          = Except.error ReadError.parseError :=
  ⟨load_missing_file_empty.1,
    load_missing_file_empty.2 ReadError.parseError (by decide)⟩

/-- For a nonempty vote list and a faithful set-iteration order, the final
recommendation is the champion of the Python max scan with the rounded
vote share as confidence. -/
lemma finalRecommendation_nonempty (setOrder : List String → List String)
    (votes : List String) (hvalid : validSetOrder setOrder) (hne : votes ≠ []) :
    ∃ best, pyMax (fun s => votes.count s) (setOrder votes) = some best ∧
      finalRecommendation setOrder votes
        = { recommendation := best
            confidence := roundTo2 (((votes.count best : ℚ) / (votes.length : ℚ)) * 100) } := by
  obtain ⟨v, vs, hv⟩ : ∃ v vs, votes = v :: vs := by
    cases votes with
    | nil => exact absurd rfl hne
    | cons v vs => exact ⟨v, vs, rfl⟩
  have hvmem : v ∈ setOrder votes :=
    ((hvalid votes).2 v).mpr (by rw [hv]; exact List.mem_cons_self v vs)
  obtain ⟨o, os, ho⟩ : ∃ o os, setOrder votes = o :: os := by
    cases h : setOrder votes with
    | nil => rw [h] at hvmem; cases hvmem
    | cons o os => exact ⟨o, os, rfl⟩
  have hEmpty : ¬(votes.isEmpty = true) := by rw [hv]; simp
  refine ⟨os.foldl
      (fun acc y => if votes.count acc < votes.count y then y else acc) o, ?_, ?_⟩
  · rw [ho]; rfl
  · unfold finalRecommendation
    rw [if_neg hEmpty, ho]
    rfl

/-- Claim C5: for a tracked symbol with a nonempty vote list, the reported
confidence lies in [0, 100], equals the winning vote share times 100
rounded to two decimals, and determines the winning count back up to the
rounding tolerance, which for total vote count t is t divided by 20000. -/
theorem confidence_bounds (setOrder : List String → List String)
    (results : List (Article × String)) (stocks : List String) (hist : List HistRow)
    (rw : ℕ) (d : ℚ) (stock : String)
    (hvalid : validSetOrder setOrder) (hmem : stock ∈ stocks)
    (hne : stock_sentiments rw d stocks results (hist.map HistRow.sentiment) stock ≠ []) :
    ∃ r : Recommendation,
      findStock (aggregate_recommendations_with_history setOrder results stocks hist rw d)
          stock = some r
        ∧ 0 ≤ r.confidence ∧ r.confidence ≤ 100
        ∧ r.confidence = roundTo2
            (100 * ((stock_sentiments rw d stocks results (hist.map HistRow.sentiment)
                stock).count r.recommendation : ℚ)
              / ((stock_sentiments rw d stocks results (hist.map HistRow.sentiment)
                stock).length : ℚ))
        ∧ |((stock_sentiments rw d stocks results (hist.map HistRow.sentiment)
              stock).count r.recommendation : ℚ)
            - r.confidence / 100 * ((stock_sentiments rw d stocks results
                (hist.map HistRow.sentiment) stock).length : ℚ)|
          ≤ ((stock_sentiments rw d stocks results (hist.map HistRow.sentiment)
              stock).length : ℚ) / 20000 := by
  set votes := stock_sentiments rw d stocks results (hist.map HistRow.sentiment) stock
    with hvotes
  obtain ⟨best, hmax, hfin⟩ := finalRecommendation_nonempty setOrder votes hvalid hne
  have hfind : findStock
      (aggregate_recommendations_with_history setOrder results stocks hist rw d) stock
      = some (finalRecommendation setOrder votes) := by
    unfold aggregate_recommendations_with_history
    exact findStock_map _ _ _ ((mem_pyDictKeys stocks stock).mpr hmem)
  have ht : 0 < votes.length := List.length_pos.mpr hne
  have htq : (0 : ℚ) < (votes.length : ℚ) := by exact_mod_cast ht
  have hwle : votes.count best ≤ votes.length := List.count_le_length best votes
  have hy0 : 0 ≤ ((votes.count best : ℚ) / (votes.length : ℚ)) * 100 := by positivity
  have hy100 : ((votes.count best : ℚ) / (votes.length : ℚ)) * 100 ≤ 100 := by
    have h1 : ((votes.count best : ℚ)) / (votes.length : ℚ) ≤ 1 :=
      (div_le_one htq).mpr (by exact_mod_cast hwle)
    nlinarith
  refine ⟨finalRecommendation setOrder votes, hfind, ?_, ?_, ?_, ?_⟩
  · rw [hfin]
    exact roundTo2_nonneg _ hy0
  · rw [hfin]
    exact roundTo2_le_100 _ hy100
  · rw [hfin]
    exact congrArg roundTo2 (by ring)
  · rw [hfin]
    have hclose := roundTo2_sub_le (((votes.count best : ℚ) / (votes.length : ℚ)) * 100)
    have hyt : (((votes.count best : ℚ) / (votes.length : ℚ)) * 100) / 100
        * (votes.length : ℚ) = (votes.count best : ℚ) := by
      field_simp
      ring
    have hdiff : (votes.count best : ℚ)
        - roundTo2 (((votes.count best : ℚ) / (votes.length : ℚ)) * 100) / 100
            * (votes.length : ℚ)
        = ((((votes.count best : ℚ) / (votes.length : ℚ)) * 100)
            - roundTo2 (((votes.count best : ℚ) / (votes.length : ℚ)) * 100)) / 100
            * (votes.length : ℚ) := by
      have expand : ((((votes.count best : ℚ) / (votes.length : ℚ)) * 100)
          - roundTo2 (((votes.count best : ℚ) / (votes.length : ℚ)) * 100)) / 100
          * (votes.length : ℚ)
          = (((votes.count best : ℚ) / (votes.length : ℚ)) * 100) / 100
              * (votes.length : ℚ)
            - roundTo2 (((votes.count best : ℚ) / (votes.length : ℚ)) * 100) / 100
              * (votes.length : ℚ) := by ring
      rw [expand, hyt]
    rw [hdiff, abs_mul, abs_div]
    rw [abs_of_nonneg htq.le, abs_of_pos (show (0 : ℚ) < 100 by norm_num)]
    have habs : |(((votes.count best : ℚ) / (votes.length : ℚ)) * 100)
        - roundTo2 (((votes.count best : ℚ) / (votes.length : ℚ)) * 100)| ≤ 1 / 200 := by
      rw [abs_sub_comm]; exact hclose
    have hstep : |(((votes.count best : ℚ) / (votes.length : ℚ)) * 100)
        - roundTo2 (((votes.count best : ℚ) / (votes.length : ℚ)) * 100)| / 100
          * (votes.length : ℚ)
        ≤ (1 / 200) / 100 * (votes.length : ℚ) := by
      have h1 : |(((votes.count best : ℚ) / (votes.length : ℚ)) * 100)
          - roundTo2 (((votes.count best : ℚ) / (votes.length : ℚ)) * 100)| / 100
          ≤ (1 / 200) / 100 :=
        (div_le_div_iff_of_pos_right (show (0 : ℚ) < 100 by norm_num)).mpr habs
      exact mul_le_mul_of_nonneg_right h1 htq.le
    calc |(((votes.count best : ℚ) / (votes.length : ℚ)) * 100)
          - roundTo2 (((votes.count best : ℚ) / (votes.length : ℚ)) * 100)| / 100
            * (votes.length : ℚ)
        ≤ (1 / 200) / 100 * (votes.length : ℚ) := hstep
      _ = (votes.length : ℚ) / 20000 := by ring

/-- Witness for C5 at a concrete input: two hold votes for MSFT give
confidence 100, within all stated bounds. -/
theorem confidence_bounds_witness :
    "MSFT" ∈ (["MSFT"] : List String) ∧
      stock_sentiments 2 (1 / 2) ["MSFT"]
          [(⟨"t", "s", "l", "d", "w"⟩, "MSFT: hold steady")]
          (([] : List HistRow).map HistRow.sentiment) "MSFT" ≠ [] ∧
      ∃ r : Recommendation,
        findStock (aggregate_recommendations_with_history pyDictKeys
            [(⟨"t", "s", "l", "d", "w"⟩, "MSFT: hold steady")] ["MSFT"] [] 2 (1 / 2))
            "MSFT" = some r
          ∧ 0 ≤ r.confidence ∧ r.confidence ≤ 100
          ∧ r.confidence = roundTo2
              (100 * ((stock_sentiments 2 (1 / 2) ["MSFT"]
                  [(⟨"t", "s", "l", "d", "w"⟩, "MSFT: hold steady")]
                  (([] : List HistRow).map HistRow.sentiment) "MSFT").count
                  r.recommendation : ℚ)
                / ((stock_sentiments 2 (1 / 2) ["MSFT"]
                  [(⟨"t", "s", "l", "d", "w"⟩, "MSFT: hold steady")]
                  (([] : List HistRow).map HistRow.sentiment) "MSFT").length : ℚ))
          ∧ |((stock_sentiments 2 (1 / 2) ["MSFT"]
                [(⟨"t", "s", "l", "d", "w"⟩, "MSFT: hold steady")]
                (([] : List HistRow).map HistRow.sentiment) "MSFT").count
                r.recommendation : ℚ)
              - r.confidence / 100 * ((stock_sentiments 2 (1 / 2) ["MSFT"]
                  [(⟨"t", "s", "l", "d", "w"⟩, "MSFT: hold steady")]
                  (([] : List HistRow).map HistRow.sentiment) "MSFT").length : ℚ)|
            ≤ ((stock_sentiments 2 (1 / 2) ["MSFT"]
                [(⟨"t", "s", "l", "d", "w"⟩, "MSFT: hold steady")]
                (([] : List HistRow).map HistRow.sentiment) "MSFT").length : ℚ) / 20000 :=
  ⟨by decide, by decide,
    confidence_bounds pyDictKeys [(⟨"t", "s", "l", "d", "w"⟩, "MSFT: hold steady")]
      ["MSFT"] [] 2 (1 / 2) "MSFT" pyDictKeys_valid (by decide) (by decide)⟩

/-- A list without duplicates whose members are exactly two given distinct
strings is one of the two orderings of the pair. -/
lemma nodup_pair_cases {a b : String} (hab : a ≠ b) (l : List String)
    (hn : l.Nodup) (hm : ∀ s, s ∈ l ↔ s = a ∨ s = b) :
    l = [a, b] ∨ l = [b, a] := by
  cases l with
  | nil => exact absurd ((hm a).mpr (Or.inl rfl)) (List.not_mem_nil a)
  | cons x t =>
    cases t with
    | nil =>
      have hax : a = x := by simpa using (hm a).mpr (Or.inl rfl)
      have hbx : b = x := by simpa using (hm b).mpr (Or.inr rfl)
      exact absurd (hax.trans hbx.symm) hab
    | cons y rest =>
      have hx : x = a ∨ x = b := (hm x).mp (by simp)
      have hy : y = a ∨ y = b := (hm y).mp (by simp)
      rw [List.nodup_cons] at hn
      obtain ⟨hxny, hn1⟩ := hn
      rw [List.nodup_cons] at hn1
      obtain ⟨hynr, _⟩ := hn1
      have hxy : x ≠ y := fun h => hxny (h ▸ List.mem_cons_self y rest)
      have hrest : rest = [] := by
        cases rest with
        | nil => rfl
        | cons z zs =>
          exfalso
          have hz : z = a ∨ z = b := (hm z).mp (by simp)
          have hzx_or : z = x ∨ z = y := by
            rcases hx with h1 | h1 <;> rcases hy with h2 | h2 <;> rcases hz with h3 | h3
            · exact absurd (h1.trans h2.symm) hxy
            · exact absurd (h1.trans h2.symm) hxy
            · exact Or.inl (h3.trans h1.symm)
            · exact Or.inr (h3.trans h2.symm)
            · exact Or.inr (h3.trans h2.symm)
            · exact Or.inl (h3.trans h1.symm)
            · exact absurd (h1.trans h2.symm) hxy
            · exact absurd (h1.trans h2.symm) hxy
          rcases hzx_or with h | h
          · exact hxny (List.mem_cons.mpr (Or.inr (List.mem_cons.mpr (Or.inl h.symm))))
          · exact hynr (List.mem_cons.mpr (Or.inl h.symm))
      subst hrest
      rcases hx with h1 | h1 <;> rcases hy with h2 | h2
      · exact absurd (h1.trans h2.symm) hxy
      · left; rw [h1, h2]
      · right; rw [h1, h2]
      · exact absurd (h1.trans h2.symm) hxy

/-- Evaluation of the vote list of the C3 scenario: the current record
gives two sell votes and the historical row at index 0 gives
`int(max(1, 2 * 0.5 ^ 0)) = 2` buy votes. -/
lemma c3_votes_eval :
    stock_sentiments 2 (1 / 2) ["AAPL"] c3Results (c3Hist.map HistRow.sentiment) "AAPL"
      = ["sell", "sell", "buy", "buy"] := by
  have hw : intWeight 2 ((2 : ℚ))⁻¹ 0 = 2 := by unfold intWeight; norm_num; decide
  have hcur : currentRecordVotes 2 "AAPL" "AAPL: sell" = ["sell", "sell"] := by decide
  have hh : histVotes 2 ((2 : ℚ))⁻¹ "AAPL" [some "AAPL: buy"] = ["buy", "buy"] := by
    unfold histVotes
    simp +decide [List.enum, List.enumFrom, histRowVotes, hw]
  have hc : (["AAPL"] : List String).count "AAPL" = 1 := by decide
  rw [stock_sentiments_apply]
  simp [hc, c3Results, c3Hist, c3HistRow, hcur, hh]

/-- Counterexample to C3 as stated: on the scenario inputs the historical
entry contributes `int(max(1, 2 * 0.5 ^ 0)) = 2` buy votes, not 1, so the
votes tie two against two and the reported confidence is 50, not 66.67
(shown here with the first-occurrence set order; the amended claim proves
confidence 50 for every faithful order). -/
theorem scenario_aapl_counterexample :
    findStock (aggregate_recommendations_with_history pyDictKeys c3Results ["AAPL"]
        c3Hist 2 (1 / 2)) "AAPL"
      = some { recommendation := "sell", confidence := 50 }
    ∧ ({ recommendation := "sell", confidence := 50 } : Recommendation)
        ≠ { recommendation := "sell", confidence := 6667 / 100 } := by
  constructor
  · have hfind : findStock (aggregate_recommendations_with_history pyDictKeys c3Results
        ["AAPL"] c3Hist 2 (1 / 2)) "AAPL"
        = some (finalRecommendation pyDictKeys
            (stock_sentiments 2 (1 / 2) ["AAPL"] c3Results (c3Hist.map HistRow.sentiment)
              "AAPL")) := by
      unfold aggregate_recommendations_with_history
      exact findStock_map _ _ _ ((mem_pyDictKeys _ _).mpr (by decide))
    rw [hfind, c3_votes_eval]
    have hfr : finalRecommendation pyDictKeys ["sell", "sell", "buy", "buy"]
        = { recommendation := "sell", confidence := 50 } := by
      unfold finalRecommendation
      rw [if_neg (show ¬((["sell", "sell", "buy", "buy"] : List String).isEmpty = true)
        from by decide)]
      rw [show pyDictKeys ["sell", "sell", "buy", "buy"] = ["sell", "buy"] from by decide]
      rw [show pyMax (fun s => List.count s ["sell", "sell", "buy", "buy"]) ["sell", "buy"]
        = some "sell" from by decide]
      dsimp only
      rw [show List.count "sell" ["sell", "sell", "buy", "buy"] = 2 from by decide]
      rw [show (["sell", "sell", "buy", "buy"] : List String).length = 4 from by decide]
      congr 1
      unfold roundTo2 roundHalfEven
      norm_num
    rw [hfr]
  · intro h
    have hconf := congrArg Recommendation.confidence h
    norm_num at hconf

/-- Amended claim C3: on the scenario inputs the current record contributes
two sell votes, the historical entry contributes two buy votes, and for
every faithful set-iteration order the aggregator reports confidence 50
with a recommendation that is buy or sell according to the unspecified
tie-break. -/
theorem scenario_aapl_amended (setOrder : List String → List String)
    (hvalid : validSetOrder setOrder) :
    ∃ r : Recommendation,
      findStock (aggregate_recommendations_with_history setOrder c3Results ["AAPL"]
          c3Hist 2 (1 / 2)) "AAPL" = some r
        ∧ r.confidence = 50
        ∧ (r.recommendation = "buy" ∨ r.recommendation = "sell") := by
  have hfind : findStock (aggregate_recommendations_with_history setOrder c3Results
      ["AAPL"] c3Hist 2 (1 / 2)) "AAPL"
      = some (finalRecommendation setOrder
          (stock_sentiments 2 (1 / 2) ["AAPL"] c3Results (c3Hist.map HistRow.sentiment)
            "AAPL")) := by
    unfold aggregate_recommendations_with_history
    exact findStock_map _ _ _ ((mem_pyDictKeys _ _).mpr (by decide))
  rw [hfind, c3_votes_eval]
  have hv4 := hvalid ["sell", "sell", "buy", "buy"]
  have hmemiff : ∀ s, s ∈ setOrder ["sell", "sell", "buy", "buy"]
      ↔ s = "sell" ∨ s = "buy" := by
    intro s
    rw [hv4.2 s]
    simp only [List.mem_cons, List.not_mem_nil, or_false]
    tauto
  rcases nodup_pair_cases (show "sell" ≠ "buy" from by decide) _ hv4.1 hmemiff
    with hord | hord
  · refine ⟨{ recommendation := "sell", confidence := 50 }, ?_, rfl, Or.inr rfl⟩
    have hfr : finalRecommendation setOrder ["sell", "sell", "buy", "buy"]
        = { recommendation := "sell", confidence := 50 } := by
      unfold finalRecommendation
      rw [if_neg (show ¬((["sell", "sell", "buy", "buy"] : List String).isEmpty = true)
        from by decide)]
      rw [hord]
      rw [show pyMax (fun s => List.count s ["sell", "sell", "buy", "buy"]) ["sell", "buy"]
        = some "sell" from by decide]
      dsimp only
      rw [show List.count "sell" ["sell", "sell", "buy", "buy"] = 2 from by decide]
      rw [show (["sell", "sell", "buy", "buy"] : List String).length = 4 from by decide]
      congr 1
      unfold roundTo2 roundHalfEven
      norm_num
    rw [hfr]
  · refine ⟨{ recommendation := "buy", confidence := 50 }, ?_, rfl, Or.inl rfl⟩
    have hfr : finalRecommendation setOrder ["sell", "sell", "buy", "buy"]
        = { recommendation := "buy", confidence := 50 } := by
      unfold finalRecommendation
      rw [if_neg (show ¬((["sell", "sell", "buy", "buy"] : List String).isEmpty = true)
        from by decide)]
      rw [hord]
      rw [show pyMax (fun s => List.count s ["sell", "sell", "buy", "buy"]) ["buy", "sell"]
        = some "buy" from by decide]
      dsimp only
      rw [show List.count "buy" ["sell", "sell", "buy", "buy"] = 2 from by decide]
      rw [show (["sell", "sell", "buy", "buy"] : List String).length = 4 from by decide]
      congr 1
      unfold roundTo2 roundHalfEven
      norm_num
    rw [hfr]

/-- Witness for C3 (amended) at the concrete first-occurrence set order. -/
theorem scenario_aapl_amended_witness :
    ∃ r : Recommendation,
      findStock (aggregate_recommendations_with_history pyDictKeys c3Results ["AAPL"]
          c3Hist 2 (1 / 2)) "AAPL" = some r
        ∧ r.confidence = 50
        ∧ (r.recommendation = "buy" ∨ r.recommendation = "sell") :=
  scenario_aapl_amended pyDictKeys pyDictKeys_valid

end NewsDashboard
